import Mathlib

/-!
# Verification of the sensitive-analysis core pipeline

A shallow embedding of the core components of the sensitive-analysis
repository: the entity data model (`src/types.ts`), the validator
(`ValidatorTool`), the deduplicator (`DeduperTool`), the CSV parser and
serializer and the unstructured chunker (`ChunkerTool`), and the
orchestration entry points (`Workflow.execute`, `analyzeSensitiveContent`).

Strings from the source are modelled as Lean `String` (entity fields, keys)
or `List Char` (content that is traversed character by character).
JavaScript numbers holding confidences and chunking options are modelled
as rationals `ℚ`; `Math.floor` becomes `Int.floor`.
-/

namespace SensitiveAnalysis

/-! ## Data model (src/types.ts) -/

/-- `SensitiveEntityBase` from src/types.ts: the fields shared by all
entity variants. -/
structure SensitiveEntityBase where
  entity : String
  reference : String
  confidence : ℚ
  rankHex : String
  category : String
  deriving DecidableEq, Repr

/-- The tagged union `SensitiveEntity` from src/types.ts.  The JSON and CSV
variants both carry exactly a `path` and are structurally identical at
runtime, so they are one constructor, exactly as the runtime type guards
(`isStructuredSensitiveEntity`) treat them. -/
inductive SensitiveEntity where
  | unstructured (base : SensitiveEntityBase) (text : String)
  | spreadsheet (base : SensitiveEntityBase) (ranges : List String) (sheetName : String)
  | structured (base : SensitiveEntityBase) (path : String)
  deriving DecidableEq, Repr

namespace SensitiveEntity

/-- The shared base fields of an entity. -/
def base : SensitiveEntity → SensitiveEntityBase
  | unstructured b _ => b
  | spreadsheet b _ _ => b
  | structured b _ => b

/-- `entity.confidence`. -/
def confidence (e : SensitiveEntity) : ℚ := e.base.confidence

/-- The `text` field of an unstructured entity (only read on that variant). -/
def textField : SensitiveEntity → String
  | unstructured _ t => t
  | _ => ""

/-- The `ranges` field of a spreadsheet entity (only read on that variant). -/
def rangesField : SensitiveEntity → List String
  | spreadsheet _ r _ => r
  | _ => []

/-- The `sheetName` field of a spreadsheet entity (only read on that variant). -/
def sheetNameField : SensitiveEntity → String
  | spreadsheet _ _ s => s
  | _ => ""

/-- The `path` field of a JSON/CSV entity (only read on that variant). -/
def pathField : SensitiveEntity → String
  | structured _ p => p
  | _ => ""

end SensitiveEntity

/-- Type guard `isUnstructuredSensitiveEntity` (deduper.ts): probes for a
string `text` field, which on the union characterises the unstructured
variant. -/
def isUnstructuredSensitiveEntity : SensitiveEntity → Bool
  | .unstructured _ _ => true
  | _ => false

/-- Type guard `isSpreadsheetSensitiveEntity` (deduper.ts): probes for
`ranges` and `sheetName`. -/
def isSpreadsheetSensitiveEntity : SensitiveEntity → Bool
  | .spreadsheet _ _ _ => true
  | _ => false

/-- Type guard `isStructuredSensitiveEntity` (deduper.ts): probes for a
`path` field and the absence of `ranges`; both the JSON and the CSV
variants satisfy it. -/
def isStructuredSensitiveEntity : SensitiveEntity → Bool
  | .structured _ _ => true
  | _ => false

/-! ## Validator (ValidatorTool, validator.ts) -/

/-- The merged (`Required`) validator configuration: `{ minimumConfidence
(default 7), enableStrictMode (default false) }`. -/
structure ValidationConfig where
  minimumConfidence : ℚ
  enableStrictMode : Bool
  deriving DecidableEq, Repr

/-- The default validator configuration from the `ValidatorTool` constructor. -/
def defaultValidationConfig : ValidationConfig :=
  { minimumConfidence := 7, enableStrictMode := false }

/-- The whitespace characters removed by JavaScript `String.prototype.trim`
(modelled by the common ASCII whitespace characters). -/
def isJsWhitespace (c : Char) : Bool :=
  c = ' ' || c = '\t' || c = '\n' || c = '\r'

/-- `s.trim().length === 0`, i.e. the string is empty or whitespace-only.
The `!entity.entity` falsy test in the source is subsumed: the empty
string trims to the empty string. -/
def trimIsEmpty (s : String) : Bool :=
  s.data.all isJsWhitespace

/-- `ValidatorTool.isValidEntity`: reject below `minimumConfidence`; in
strict mode additionally reject a blank label and any confidence below 8. -/
def isValidEntity (config : ValidationConfig) (e : SensitiveEntity) : Bool :=
  if e.confidence < config.minimumConfidence then false
  else if config.enableStrictMode then
    if trimIsEmpty e.base.entity then false
    else if e.confidence < 8 then false
    else true
  else true

/-- `ValidatorTool.validateEntities`: filter a batch by `isValidEntity`. -/
def validateEntities (config : ValidationConfig) (entities : List SensitiveEntity) :
    List SensitiveEntity :=
  entities.filter (fun e => isValidEntity config e)

/-! ## Deduplicator (DeduperTool, deduper.ts) -/

/-- The merged deduplication configuration: `{ caseSensitive (default false) }`. -/
structure DeduplicationConfig where
  caseSensitive : Bool
  deriving DecidableEq, Repr

/-- Lookup in an insertion-ordered association list, the model of a
JavaScript `Map` (`seen.get(key)`). -/
def assocLookup {β : Type} : List (String × β) → String → Option β
  | [], _ => none
  | (k', v) :: rest, k => if k' = k then some v else assocLookup rest k

/-- `seen.set(key, value)` on a JavaScript `Map`: replace the value of an
existing key in place (keeping its insertion position), otherwise append
the new key at the end. -/
def assocSet {β : Type} : List (String × β) → String → β → List (String × β)
  | [], k, v => [(k, v)]
  | (k', v') :: rest, k, v =>
    if k' = k then (k', v) :: rest else (k', v') :: assocSet rest k v

/-- One iteration of the `deduplicateByKey` loop: keep the incumbent unless
the incoming entity has strictly higher confidence (or the key is new). -/
def dedupStep (key : SensitiveEntity → String)
    (seen : List (String × SensitiveEntity)) (e : SensitiveEntity) :
    List (String × SensitiveEntity) :=
  match assocLookup seen (key e) with
  | none => assocSet seen (key e) e
  | some existing =>
    if existing.confidence < e.confidence then assocSet seen (key e) e else seen

/-- `DeduperTool.deduplicateByKey`: fold the entities through the
key-to-best map and return the surviving values in key-insertion order
(`[...seen.values()]`). -/
def deduplicateByKey (entities : List SensitiveEntity)
    (key : SensitiveEntity → String) : List SensitiveEntity :=
  (entities.foldl (dedupStep key) []).map Prod.snd

/-- `normalizeRanges` (deduper.ts, SPREADSHEET case): sort the ranges
lexicographically and join them with commas.  `localeCompare` is modelled
by the lexicographic order on strings. -/
def normalizeRanges (ranges : List String) : String :=
  String.intercalate "," (List.insertionSort (· ≤ ·) ranges)

/-- Identity key for unstructured entities: the matched text, lower-cased
unless `caseSensitive`. -/
def dedupKeyUnstructured (caseSensitive : Bool) (e : SensitiveEntity) : String :=
  if caseSensitive then e.textField else e.textField.toLower

/-- Identity key for spreadsheet entities: `sheetName + ":" + normalizeRanges`. -/
def dedupKeySpreadsheet (e : SensitiveEntity) : String :=
  e.sheetNameField ++ ":" ++ normalizeRanges e.rangesField

/-- Identity key for JSON/CSV entities: the structural `path`, verbatim. -/
def dedupKeyStructured (e : SensitiveEntity) : String :=
  e.pathField

/-- `DeduperTool.removeDuplicates`: the switch over the analysis type.  The
analysis type is modelled as the runtime string so that values outside the
enum (which TypeScript does not prevent at runtime) reach the `default`
branch, which returns the input unchanged. -/
def removeDuplicates (config : DeduplicationConfig)
    (entities : List SensitiveEntity) (analysisType : String) :
    List SensitiveEntity :=
  match analysisType with
  | "UNSTRUCTURED" =>
    deduplicateByKey (entities.filter isUnstructuredSensitiveEntity)
      (dedupKeyUnstructured config.caseSensitive)
  | "SPREADSHEET" =>
    deduplicateByKey (entities.filter isSpreadsheetSensitiveEntity)
      dedupKeySpreadsheet
  | "JSON" =>
    deduplicateByKey (entities.filter isStructuredSensitiveEntity)
      dedupKeyStructured
  | "CSV" =>
    deduplicateByKey (entities.filter isStructuredSensitiveEntity)
      dedupKeyStructured
  | _ => entities

/-! ## Reference notions for the deduplicator's specification -/

/-- The keys of a list in order of first occurrence (later duplicates
dropped). -/
def firstOccurrenceKeys : List String → List String
  | [] => []
  | k :: rest => k :: firstOccurrenceKeys (rest.filter (fun x => x ≠ k))
termination_by l => l.length
decreasing_by
  exact Nat.lt_succ_of_le (List.length_filter_le _ _)

/-- The streaming best-confidence choice: a later candidate replaces the
current best only on strictly higher confidence. -/
def combineBest (acc : Option SensitiveEntity) (e : SensitiveEntity) :
    Option SensitiveEntity :=
  match acc with
  | none => some e
  | some b => if b.confidence < e.confidence then some e else some b

/-- The entity kept for key `k`: the streaming reduce of `combineBest` over
the entities whose key is `k`, in input order. -/
def bestForKey (entities : List SensitiveEntity)
    (key : SensitiveEntity → String) (k : String) : Option SensitiveEntity :=
  (entities.filter (fun e => key e = k)).foldl combineBest none

/-! ## CSV parser and serializer (chunker.ts) -/

/-- The state machine of `parseCsv` (chunker.ts): a character-by-character
scan carrying `inQuotes`, the current field, the current row and the
finished rows.  Doubled quotes inside a quoted field produce a literal
quote; unquoted commas and newlines split fields and rows; `\r\n` counts
as one row break. -/
def parseCsvAux : List Char → Bool → List Char → List (List Char) →
    List (List (List Char)) → List (List (List Char))
  | [], _, field, row, rows => rows ++ [row ++ [field]]
  | ch :: rest, inQuotes, field, row, rows =>
    if ch = '"' then
      if inQuotes = true ∧ rest.head? = some '"' then
        parseCsvAux rest.tail true (field ++ ['"']) row rows
      else
        parseCsvAux rest (!inQuotes) field row rows
    else if inQuotes = false ∧ ch = ',' then
      parseCsvAux rest inQuotes [] (row ++ [field]) rows
    else if inQuotes = false ∧ (ch = '\n' ∨ ch = '\r') then
      if ch = '\r' ∧ rest.head? = some '\n' then
        parseCsvAux rest.tail inQuotes [] [] (rows ++ [row ++ [field]])
      else
        parseCsvAux rest inQuotes [] [] (rows ++ [row ++ [field]])
    else
      parseCsvAux rest inQuotes (field ++ [ch]) row rows
termination_by l _ _ _ _ => l.length
decreasing_by all_goals (simp only [List.length_cons, List.length_tail]; omega)

/-- `parseCsv` (chunker.ts): run the scan from the initial state; the last
field and row are always pushed, so empty content yields one empty-field
row. -/
def parseCsv (content : List Char) : List (List (List Char)) :=
  parseCsvAux content false [] [] []

/-- `val.replace(/"/g, '""')`: double every quote. -/
def escapeQuotes : List Char → List Char
  | [] => []
  | c :: rest => (if c = '"' then ['"', '"'] else [c]) ++ escapeQuotes rest

/-- A field must be wrapped in quotes when it contains a comma, a quote,
or a newline character. -/
def needsQuoting (s : List Char) : Bool :=
  s.contains ',' || s.contains '"' || s.contains '\r' || s.contains '\n'

/-- Serialization of one CSV field in `serializeCsvRow`: escape quotes by
doubling, then wrap in quotes if any special character is present. -/
def serializeCsvField (val : List Char) : List Char :=
  let escaped := escapeQuotes val
  if needsQuoting escaped then '"' :: (escaped ++ ['"']) else escaped

/-- `array.join(',')`. -/
def joinComma : List (List Char) → List Char
  | [] => []
  | [s] => s
  | s :: rest => s ++ ',' :: joinComma rest

/-- `serializeCsvRow` (chunker.ts): serialize each field and join with
commas. -/
def serializeCsvRow (vals : List (List Char)) : List Char :=
  joinComma (vals.map serializeCsvField)

/-! ## Unstructured chunking (ChunkerTool.chunkUnstructured) -/

/-- The chunk record (`ChunkData` in src/types.ts).  The generated id
`chunk_${Date.now()}_${index}` depends on the wall clock; it is modelled by
its distinguishing index part `idIndex`. -/
structure ChunkData where
  idIndex : Nat
  text : List Char
  offset : Nat
  analysisType : String
  deriving DecidableEq, Repr, Inhabited

/-- `Math.max(1, Math.floor(chunkSize))`, pushed into `ℕ` (the clamp
guarantees the value is at least 1, so `Int.toNat` is lossless). -/
def clampedSize (chunkSize : ℚ) : Nat :=
  (max 1 ⌊chunkSize⌋).toNat

/-- `Math.max(0, Math.floor(overlap))`, pushed into `ℕ`. -/
def clampedOverlap (overlap : ℚ) : Nat :=
  (max 0 ⌊overlap⌋).toNat

/-- `Math.max(1, size - ov)`: the effective window step.  Natural-number
subtraction truncates at zero exactly like the integer clamp in the
source. -/
def effectiveStep (chunkSize overlap : ℚ) : Nat :=
  max 1 (clampedSize chunkSize - clampedOverlap overlap)

/-- `text.slice(start, stop)` for `start ≤ stop ≤ text.length`. -/
def jsSlice (text : List Char) (start stop : Nat) : List Char :=
  (text.drop start).take (stop - start)

/-- The `while (start < text.length)` loop of `chunkUnstructured`: emit the
window `[start, min(length, start + size))`, then advance by `step`,
stopping as soon as a window reaches the end of the text.  The positivity
of `step` is exactly what the source's clamp guarantees and is what makes
the loop terminate. -/
def chunkUnstructuredLoop (text : List Char) (size step : Nat)
    (hstep : 0 < step) (analysisType : String) (idx start : Nat) :
    List ChunkData :=
  if _h : start < text.length then
    let endPos := min text.length (start + size)
    let c : ChunkData :=
      { idIndex := idx, text := jsSlice text start endPos, offset := start,
        analysisType := analysisType }
    if text.length ≤ endPos then [c]
    else c :: chunkUnstructuredLoop text size step hstep analysisType
      (idx + 1) (start + step)
  else []
termination_by text.length - start
decreasing_by omega

/-- `ChunkerTool.chunkUnstructured`: clamp the options, emit one empty
chunk for empty content, otherwise run the sliding-window loop from
offset 0. -/
def chunkUnstructured (chunkSize overlap : ℚ) (analysisType : String)
    (text : List Char) : List ChunkData :=
  let size := clampedSize chunkSize
  let step := effectiveStep chunkSize overlap
  if text.length = 0 then
    [{ idIndex := 0, text := [], offset := 0, analysisType := analysisType }]
  else
    chunkUnstructuredLoop text size step (Nat.le_max_left 1 _) analysisType 0 0

/-- The character range `[offset, offset + text.length)` of a chunk
contains position `i`. -/
def chunkCovers (c : ChunkData) (i : Nat) : Prop :=
  c.offset ≤ i ∧ i < c.offset + c.text.length

/-- The length of the intersection of the character ranges of two chunks. -/
def chunkOverlapLength (c₁ c₂ : ChunkData) : Nat :=
  min (c₁.offset + c₁.text.length) (c₂.offset + c₂.text.length) -
    max c₁.offset c₂.offset

/-! ## Orchestrator (workflow.ts, analyzeSensitiveContent)

The external entity identifier and the chunker strategies are collaborators
of `Workflow.execute`; both are taken as explicit function parameters so
that the orchestration properties are quantified over every possible
collaborator behaviour.  Concurrency is modelled by one fixed
serialization: tasks are evaluated in chunk order, all forwarded events
are kept, and the first failing task (in that order) supplies the error
message, exactly as `Promise.all` rejects with one failure. -/

/-- A policy entry as validated by the `TriggerSchema` (its `id` and `name`
string fields). -/
structure PolicyRef where
  id : String
  name : String
  deriving DecidableEq, Repr

/-- The processing job as seen at runtime.  The analysis type is the
runtime string (TypeScript cannot prevent out-of-enum values at runtime,
and the zod schema checks the string against the closed enum). -/
structure ProcessingJob where
  content : List Char
  analysisType : String
  policies : List PolicyRef
  deriving DecidableEq, Repr

/-- The closed analysis-type enum, in the order of the zod `z.enum`
literal in workflow.ts. -/
def enumAnalysisTypes : List String := ["UNSTRUCTURED", "CSV", "JSON", "SPREADSHEET"]

/-- `TriggerSchema.parse` succeeds (workflow.ts lines 19-30): non-empty
`content`, `analysisType` in the closed enum, and a non-empty `policies`
array.  The policy `id` and `name` fields are validated only as strings
(`z.string()`, with no `.min(1)`), so their contents are unconstrained. -/
def triggerParseOk (job : ProcessingJob) : Bool :=
  decide (1 ≤ job.content.length) &&
    enumAnalysisTypes.contains job.analysisType &&
    decide (1 ≤ job.policies.length)

/-- The payload of one streamed `thinking` event (`ThinkingEventData`):
a chunk id and a timestamp; the partial-entity snapshot is opaque to the
orchestration properties and is modelled by its length. -/
structure ThinkingData where
  chunkIdIndex : Nat
  timestamp : Nat
  entitiesSoFar : Nat
  deriving DecidableEq, Repr

/-- `AnalysisStats` from src/types.ts.  `processingTimeMs` is wall-clock
time; the model fixes it to 0. -/
structure AnalysisStats where
  chunksGenerated : Nat
  entitiesFound : Nat
  entitiesValidated : Nat
  entitiesDeduplicated : Nat
  processingTimeMs : Nat
  deriving DecidableEq, Repr

/-- What `Workflow.execute` resolves with on success. -/
structure WorkflowResult where
  entities : List SensitiveEntity
  chunks : List ChunkData
  stats : AnalysisStats
  deriving DecidableEq, Repr

/-- The behaviour of the external identifier collaborator on one chunk
task: the `thinking` events it streams and either its terminal entity list
or a failure message. -/
abbrev IdentifierBehavior :=
  Nat → ChunkData → List ThinkingData × Except String (List SensitiveEntity)

/-- A chunking strategy collaborator: analysis type and content to chunks. -/
abbrev ChunkerBehavior := String → List Char → List ChunkData

/-- One chunk task of `Workflow.execute` (workflow.ts lines 83-109):
identify, count, validate; a failure is wrapped with the 1-based chunk
index.  On success the task returns the validated entities together with
the pre-validation count. -/
def chunkTask (vconfig : ValidationConfig) (ident : IdentifierBehavior)
    (i : Nat) (chunk : ChunkData) :
    List ThinkingData × Except String (List SensitiveEntity × Nat) :=
  let r := ident i chunk
  match r.2 with
  | .ok entities => (r.1, .ok (validateEntities vconfig entities, entities.length))
  | .error msg =>
    (r.1, .error ("Chunk " ++ toString (i + 1) ++ " processing failed: " ++ msg))

/-- The zod validation error surfaced through the catch block of
`Workflow.execute`.  (zod generates the message text; it is modelled by a
fixed string.) -/
def invalidJobMessage : String := "Sensitive analysis failed: invalid job"

/-- The post-validation part of `Workflow.execute`: chunk, fan out one
task per chunk, join, and either fail with the first task error (wrapped
again by the catch block) or deduplicate the union and build the stats. -/
def runChunkPipeline (chunker : ChunkerBehavior) (ident : IdentifierBehavior)
    (vconfig : ValidationConfig) (dconfig : DeduplicationConfig)
    (job : ProcessingJob) : List ThinkingData × Except String WorkflowResult :=
  let chunks := chunker job.analysisType job.content
  let outs := chunks.enum.map (fun p => chunkTask vconfig ident p.1 p.2)
  let events := (outs.map Prod.fst).flatten
  match outs.findSome? (fun o => match o.2 with | .error m => some m | .ok _ => none) with
  | some m => (events, .error ("Sensitive analysis failed: " ++ m))
  | none =>
    let taskResults := outs.filterMap (fun o => o.2.toOption)
    let validated := (taskResults.map Prod.fst).flatten
    let identifiedCount := (taskResults.map Prod.snd).sum
    let finalEntities := removeDuplicates dconfig validated job.analysisType
    (events, .ok
      { entities := finalEntities, chunks := chunks,
        stats :=
          { chunksGenerated := chunks.length, entitiesFound := identifiedCount,
            entitiesValidated := validated.length,
            entitiesDeduplicated := finalEntities.length,
            processingTimeMs := 0 } })

/-- `Workflow.execute` (workflow.ts lines 57-150): validate the trigger
first and fail the whole job before any chunk work when validation fails,
otherwise run the chunk pipeline. -/
def executeWorkflow (chunker : ChunkerBehavior) (ident : IdentifierBehavior)
    (vconfig : ValidationConfig) (dconfig : DeduplicationConfig)
    (job : ProcessingJob) : List ThinkingData × Except String WorkflowResult :=
  if triggerParseOk job then
    runChunkPipeline chunker ident vconfig dconfig job
  else
    ([], .error invalidJobMessage)

/-- The events delivered to the caller-supplied callback of
`analyzeSensitiveContent`. -/
inductive AnalysisEvent where
  | thinking (data : ThinkingData)
  | complete (entities : List SensitiveEntity) (stats : AnalysisStats)
  | error (message : String)
  deriving DecidableEq, Repr

/-- A terminal event: `complete` or `error`. -/
def isTerminalEvent : AnalysisEvent → Bool
  | .complete _ _ => true
  | .error _ => true
  | .thinking _ => false

/-- Recognizer for `complete` events. -/
def isCompleteEvent : AnalysisEvent → Bool
  | .complete _ _ => true
  | _ => false

/-- Recognizer for `error` events. -/
def isErrorEvent : AnalysisEvent → Bool
  | .error _ => true
  | _ => false

/-- `analyzeSensitiveContent` (the pipeline entry point): forward each
streamed event, then emit exactly one `complete` on resolution or one
`error` on rejection.  The function's value is the full event trace seen
by the callback. -/
def analyzeSensitiveContent (chunker : ChunkerBehavior)
    (ident : IdentifierBehavior) (vconfig : ValidationConfig)
    (dconfig : DeduplicationConfig) (job : ProcessingJob) :
    List AnalysisEvent :=
  let r := executeWorkflow chunker ident vconfig dconfig job
  (r.1.map AnalysisEvent.thinking) ++
    [match r.2 with
     | .ok result => .complete result.entities result.stats
     | .error m => .error m]

/-! ## Further reference notions used by the theorems -/

/-- The type-guard filter that each recognized branch of `removeDuplicates`
applies to its input before deduplicating. -/
def dedupShapeGuard (shape : String) : SensitiveEntity → Bool :=
  match shape with
  | "UNSTRUCTURED" => isUnstructuredSensitiveEntity
  | "SPREADSHEET" => isSpreadsheetSensitiveEntity
  | "JSON" => isStructuredSensitiveEntity
  | "CSV" => isStructuredSensitiveEntity
  | _ => fun _ => true

/-- The identity-key extractor that each recognized branch of
`removeDuplicates` uses. -/
def dedupShapeKey (caseSensitive : Bool) (shape : String) :
    SensitiveEntity → String :=
  match shape with
  | "UNSTRUCTURED" => dedupKeyUnstructured caseSensitive
  | "SPREADSHEET" => dedupKeySpreadsheet
  | _ => dedupKeyStructured

/-- The accumulator-threaded form of `firstOccurrenceKeys`: the keys of
`ks` that are outside `dom`, in order of first occurrence. -/
def newKeys (dom : List String) : List String → List String
  | [] => []
  | k :: rest =>
    if k ∈ dom then newKeys dom rest else k :: newKeys (dom ++ [k]) rest

/-- Modelled from the spec of claim C3 (spec §4.4): a job is claimed
invalid when the content is empty, the shape is outside the closed enum,
the policies list is empty, or some policy entry has an empty `id` or
`name`.  (The last condition is what the zod `TriggerSchema` in the source
does not check.) -/
def specInvalidJob (job : ProcessingJob) : Bool :=
  job.content.isEmpty || !(enumAnalysisTypes.contains job.analysisType) ||
    job.policies.isEmpty ||
    job.policies.any (fun p => p.id = "" || p.name = "")

/-! ## Lemmas about the unstructured chunking loop -/

theorem jsSlice_length (text : List Char) (start stop : Nat)
    (hstop : stop ≤ text.length) : (jsSlice text start stop).length = stop - start := by
  simp only [jsSlice, List.length_take, List.length_drop]
  omega

theorem chunkUnstructuredLoop_eq_nil (text : List Char) (size step : Nat)
    (hstep : 0 < step) (shape : String) (idx start : Nat)
    (h : ¬ start < text.length) :
    chunkUnstructuredLoop text size step hstep shape idx start = [] := by
  rw [chunkUnstructuredLoop]
  simp [h]

theorem chunkUnstructuredLoop_eq_last (text : List Char) (size step : Nat)
    (hstep : 0 < step) (shape : String) (idx start : Nat)
    (h : start < text.length) (h2 : text.length ≤ start + size) :
    chunkUnstructuredLoop text size step hstep shape idx start =
      [{ idIndex := idx, text := jsSlice text start (min text.length (start + size)),
         offset := start, analysisType := shape }] := by
  rw [chunkUnstructuredLoop]
  have hmin : text.length ≤ min text.length (start + size) := le_min le_rfl h2
  simp [h, hmin]

theorem chunkUnstructuredLoop_eq_cons (text : List Char) (size step : Nat)
    (hstep : 0 < step) (shape : String) (idx start : Nat)
    (h2 : start + size < text.length) :
    chunkUnstructuredLoop text size step hstep shape idx start =
      { idIndex := idx, text := jsSlice text start (start + size),
        offset := start, analysisType := shape } ::
        chunkUnstructuredLoop text size step hstep shape (idx + 1) (start + step) := by
  rw [chunkUnstructuredLoop]
  have h : start < text.length := by omega
  have hmin : min text.length (start + size) = start + size := by omega
  have hnot : ¬ text.length ≤ start + size := by omega
  simp [h, hmin, hnot]

/-- Every chunk emitted from window position `start` sits at or after
`start`, begins strictly inside the text, and its character range stays
inside the text. -/
theorem chunkUnstructuredLoop_mem_bounds (text : List Char) (size step : Nat)
    (hstep : 0 < step) (shape : String) (idx start : Nat) (c : ChunkData)
    (hc : c ∈ chunkUnstructuredLoop text size step hstep shape idx start) :
    start ≤ c.offset ∧ c.offset < text.length ∧
      c.offset + c.text.length ≤ text.length := by
  by_cases h : start < text.length
  · by_cases h2 : text.length ≤ start + size
    · rw [chunkUnstructuredLoop_eq_last text size step hstep shape idx start h h2] at hc
      simp only [List.mem_singleton] at hc
      subst hc
      have hlen := jsSlice_length text start (min text.length (start + size))
        (min_le_left _ _)
      dsimp only
      rw [hlen]
      omega
    · push_neg at h2
      rw [chunkUnstructuredLoop_eq_cons text size step hstep shape idx start h2] at hc
      rcases List.mem_cons.mp hc with hc | hc
      · subst hc
        have hlen := jsSlice_length text start (start + size) (le_of_lt h2)
        dsimp only
        rw [hlen]
        omega
      · have := chunkUnstructuredLoop_mem_bounds text size step hstep shape
          (idx + 1) (start + step) c hc
        omega
  · rw [chunkUnstructuredLoop_eq_nil text size step hstep shape idx start h] at hc
    simp at hc
termination_by text.length - start
decreasing_by omega

/-- Completeness of the sliding window: when the step does not exceed the
window size, every position from `start` to the end of the text is covered
by some emitted chunk. -/
theorem chunkUnstructuredLoop_covers (text : List Char) (size step : Nat)
    (hstep : 0 < step) (shape : String) (hss : step ≤ size) (idx start i : Nat)
    (h1 : start ≤ i) (h2 : i < text.length) :
    ∃ c ∈ chunkUnstructuredLoop text size step hstep shape idx start,
      chunkCovers c i := by
  have h : start < text.length := lt_of_le_of_lt h1 h2
  by_cases hlast : text.length ≤ start + size
  · rw [chunkUnstructuredLoop_eq_last text size step hstep shape idx start h hlast]
    refine ⟨_, List.mem_singleton_self _, ?_⟩
    have hlen := jsSlice_length text start (min text.length (start + size))
      (min_le_left _ _)
    constructor
    · exact h1
    · simp only [hlen]
      omega
  · push_neg at hlast
    rw [chunkUnstructuredLoop_eq_cons text size step hstep shape idx start hlast]
    by_cases hi : i < start + size
    · refine ⟨_, List.mem_cons_self _ _, ?_⟩
      have hlen := jsSlice_length text start (start + size) (le_of_lt hlast)
      constructor
      · exact h1
      · simp only [hlen]
        omega
    · have h1' : start + step ≤ i := by omega
      obtain ⟨c, hmem, hcov⟩ := chunkUnstructuredLoop_covers text size step hstep
        shape hss (idx + 1) (start + step) i h1' h2
      exact ⟨c, List.mem_cons_of_mem _ hmem, hcov⟩
termination_by text.length - start
decreasing_by omega

/-- The head chunk of the loop starts at `start` and has the window's
(possibly truncated) length. -/
theorem chunkUnstructuredLoop_getD_zero (text : List Char) (size step : Nat)
    (hstep : 0 < step) (shape : String) (idx start : Nat)
    (h : start < text.length) :
    ((chunkUnstructuredLoop text size step hstep shape idx start).getD 0 default).offset
        = start ∧
    ((chunkUnstructuredLoop text size step hstep shape idx start).getD 0 default).text.length
        = min text.length (start + size) - start := by
  have hlen := jsSlice_length text start (min text.length (start + size))
    (min_le_left _ _)
  by_cases h2 : text.length ≤ start + size
  · rw [chunkUnstructuredLoop_eq_last text size step hstep shape idx start h h2]
    simp [hlen]
  · push_neg at h2
    rw [chunkUnstructuredLoop_eq_cons text size step hstep shape idx start h2]
    have hmin : min text.length (start + size) = start + size := by omega
    have hlen2 := jsSlice_length text start (start + size) (le_of_lt h2)
    simp [hmin, hlen2]

/-- Structure of consecutive chunks: whenever chunk `j+1` exists, chunk
`j`'s window was full (`size` characters, ending strictly inside the
text) and chunk `j+1` starts exactly `step` later. -/
theorem chunkUnstructuredLoop_pair (text : List Char) (size step : Nat)
    (hstep : 0 < step) (shape : String) (idx start j : Nat)
    (hj : j + 1 < (chunkUnstructuredLoop text size step hstep shape idx start).length) :
    ((chunkUnstructuredLoop text size step hstep shape idx start).getD (j+1) default).offset
        = ((chunkUnstructuredLoop text size step hstep shape idx start).getD j default).offset + step ∧
    ((chunkUnstructuredLoop text size step hstep shape idx start).getD j default).offset + size
        < text.length ∧
    ((chunkUnstructuredLoop text size step hstep shape idx start).getD j default).text.length
        = size ∧
    ((chunkUnstructuredLoop text size step hstep shape idx start).getD (j+1) default).text.length
        = min text.length
            (((chunkUnstructuredLoop text size step hstep shape idx start).getD (j+1) default).offset + size)
          - ((chunkUnstructuredLoop text size step hstep shape idx start).getD (j+1) default).offset := by
  by_cases h : start < text.length
  · by_cases hlast : text.length ≤ start + size
    · rw [chunkUnstructuredLoop_eq_last text size step hstep shape idx start h hlast] at hj
      simp at hj
    · push_neg at hlast
      rw [chunkUnstructuredLoop_eq_cons text size step hstep shape idx start hlast] at hj ⊢
      have hrest : start + step < text.length := by
        by_contra hge
        rw [chunkUnstructuredLoop_eq_nil text size step hstep shape (idx+1) (start+step) hge] at hj
        simp at hj
      cases j with
      | zero =>
        have hz := chunkUnstructuredLoop_getD_zero text size step hstep shape
          (idx + 1) (start + step) hrest
        have hlen := jsSlice_length text start (start + size) (le_of_lt hlast)
        simp only [List.getD_cons_zero, List.getD_cons_succ]
        refine ⟨?_, hlast, ?_, ?_⟩
        · rw [hz.1]
        · simpa using hlen
        · rw [hz.1, hz.2]
      | succ j' =>
        simp only [List.length_cons] at hj
        have hj' : j' + 1 < (chunkUnstructuredLoop text size step hstep shape
            (idx + 1) (start + step)).length := by omega
        have := chunkUnstructuredLoop_pair text size step hstep shape
          (idx + 1) (start + step) j' hj'
        simpa only [List.getD_cons_succ] using this
  · rw [chunkUnstructuredLoop_eq_nil text size step hstep shape idx start h] at hj
    simp at hj
termination_by text.length - start
decreasing_by omega

theorem clampedSize_natCast (S : Nat) (hS : 1 ≤ S) : clampedSize (S : ℚ) = S := by
  unfold clampedSize
  rw [Int.floor_natCast]
  rw [max_eq_right (by exact_mod_cast hS : (1 : ℤ) ≤ (S : ℤ))]
  omega

theorem clampedOverlap_natCast (O : Nat) : clampedOverlap (O : ℚ) = O := by
  unfold clampedOverlap
  rw [Int.floor_natCast]
  rw [max_eq_right (by exact_mod_cast Nat.zero_le O : (0 : ℤ) ≤ (O : ℤ))]
  omega

theorem effectiveStep_natCast (S O : Nat) (hO : O < S) :
    effectiveStep (S : ℚ) (O : ℚ) = S - O := by
  unfold effectiveStep
  rw [clampedSize_natCast S (by omega), clampedOverlap_natCast O]
  omega

/-- C1: For every unstructured content string of length L, chunkSize S and
overlap O with O < S, the chunks produced by the UNSTRUCTURED strategy
(`ChunkerTool.chunkUnstructured`, the strategy `createChunks` dispatches to
for shape UNSTRUCTURED) cover `[0, L)` exactly — a position `i` is inside
some chunk's character range iff `i < L` — and every two consecutive
chunks other than possibly the last pair overlap by exactly `min O S`
characters. -/
theorem chunkUnstructured_coverage_and_overlap (text : List Char)
    (S O : Nat) (shape : String) (hO : O < S) :
    (∀ i : Nat, i < text.length ↔
      ∃ c ∈ chunkUnstructured (S : ℚ) (O : ℚ) shape text, chunkCovers c i) ∧
    (∀ j : Nat,
      j + 2 < (chunkUnstructured (S : ℚ) (O : ℚ) shape text).length →
      chunkOverlapLength
          ((chunkUnstructured (S : ℚ) (O : ℚ) shape text).getD j default)
          ((chunkUnstructured (S : ℚ) (O : ℚ) shape text).getD (j+1) default)
        = min O S) := by
  have hsize : clampedSize (S : ℚ) = S := clampedSize_natCast S (by omega)
  have hstepq : effectiveStep (S : ℚ) (O : ℚ) = S - O := effectiveStep_natCast S O hO
  by_cases hempty : text.length = 0
  · have hsingle : chunkUnstructured (S : ℚ) (O : ℚ) shape text =
        [{ idIndex := 0, text := [], offset := 0, analysisType := shape }] := by
      unfold chunkUnstructured
      simp [hempty]
    constructor
    · intro i
      rw [hsingle]
      simp [chunkCovers, hempty]
    · intro j hj
      rw [hsingle] at hj
      simp at hj
  · have hrun : chunkUnstructured (S : ℚ) (O : ℚ) shape text =
        chunkUnstructuredLoop text (clampedSize (S : ℚ))
          (effectiveStep (S : ℚ) (O : ℚ)) (Nat.le_max_left 1 _) shape 0 0 := by
      unfold chunkUnstructured
      simp [hempty]
    constructor
    · intro i
      constructor
      · intro hi
        rw [hrun]
        exact chunkUnstructuredLoop_covers text _ _ _ shape
          (by omega) 0 0 i (Nat.zero_le i) hi
      · rintro ⟨c, hc, hcov⟩
        rw [hrun] at hc
        have hb := chunkUnstructuredLoop_mem_bounds text _ _ _ shape 0 0 c hc
        rcases hcov with ⟨hle, hlt⟩
        omega
    · intro j hj
      rw [hrun] at hj ⊢
      have hp1 := chunkUnstructuredLoop_pair text (clampedSize (S : ℚ))
        (effectiveStep (S : ℚ) (O : ℚ)) (Nat.le_max_left 1 _) shape 0 0 j
        (by omega)
      have hp2 := chunkUnstructuredLoop_pair text (clampedSize (S : ℚ))
        (effectiveStep (S : ℚ) (O : ℚ)) (Nat.le_max_left 1 _) shape 0 0 (j+1)
        (by omega)
      rcases hp1 with ⟨ho1, hf1, hl1, _⟩
      rcases hp2 with ⟨_, hf2, hl2, _⟩
      unfold chunkOverlapLength
      omega

/-- Witness for C1 at a concrete input: content of length 8, chunk size 3,
overlap 1. -/
theorem chunkUnstructured_coverage_and_overlap_witness :
    (1 < 3) ∧
    ((∀ i : Nat, i < ("abcdefgh".toList).length ↔
      ∃ c ∈ chunkUnstructured (3 : ℚ) (1 : ℚ) "UNSTRUCTURED" "abcdefgh".toList,
        chunkCovers c i) ∧
    (∀ j : Nat,
      j + 2 < (chunkUnstructured (3 : ℚ) (1 : ℚ) "UNSTRUCTURED" "abcdefgh".toList).length →
      chunkOverlapLength
          ((chunkUnstructured (3 : ℚ) (1 : ℚ) "UNSTRUCTURED" "abcdefgh".toList).getD j default)
          ((chunkUnstructured (3 : ℚ) (1 : ℚ) "UNSTRUCTURED" "abcdefgh".toList).getD (j+1) default)
        = min 1 3)) :=
  ⟨by omega,
    chunkUnstructured_coverage_and_overlap "abcdefgh".toList 3 1 "UNSTRUCTURED"
      (by omega)⟩

/-- C6: For every chunkSize and overlap configuration (including
overlap ≥ chunkSize), unstructured chunking terminates — it is a total
function of its clamped options, whose loop advances by the effective step
`max 1 (size − overlap) ≥ 1` — and produces at least one chunk. -/
theorem chunkUnstructured_step_positive_and_nonempty
    (chunkSize overlap : ℚ) (shape : String) (text : List Char) :
    1 ≤ clampedSize chunkSize ∧ 1 ≤ effectiveStep chunkSize overlap ∧
      1 ≤ (chunkUnstructured chunkSize overlap shape text).length := by
  refine ⟨?_, Nat.le_max_left 1 _, ?_⟩
  · unfold clampedSize
    have := le_max_left (1 : ℤ) ⌊chunkSize⌋
    omega
  · unfold chunkUnstructured
    by_cases hempty : text.length = 0
    · simp [hempty]
    · simp only [hempty, if_neg hempty]
      have h0 : 0 < text.length := by omega
      by_cases h2 : text.length ≤ 0 + clampedSize chunkSize
      · rw [chunkUnstructuredLoop_eq_last text _ _ _ shape 0 0 h0 h2]
        simp
      · push_neg at h2
        rw [chunkUnstructuredLoop_eq_cons text _ _ _ shape 0 0 (by omega)]
        simp

/-! ## Validator theorems -/

/-- C4: The validator accepts an entity iff its confidence is at least
`minimumConfidence` and, in strict mode, its label is non-blank and its
confidence is at least 8 — equivalently, strict mode's effective floor is
`max minimumConfidence 8`; the bounds are inclusive.  `validateEntities`
is exactly the filter by this predicate, so it returns the accepted
entities in input order (a sublist of the input). -/
theorem isValidEntity_characterization (config : ValidationConfig)
    (e : SensitiveEntity) (es : List SensitiveEntity) :
    (isValidEntity config e = true ↔
      (config.minimumConfidence ≤ e.confidence ∧
        (config.enableStrictMode = true →
          trimIsEmpty e.base.entity = false ∧ 8 ≤ e.confidence))) ∧
    (config.enableStrictMode = true →
      (isValidEntity config e = true ↔
        (trimIsEmpty e.base.entity = false ∧
          max config.minimumConfidence 8 ≤ e.confidence))) ∧
    validateEntities config es = es.filter (fun x => isValidEntity config x) ∧
    (validateEntities config es).Sublist es := by
  have hmain : isValidEntity config e = true ↔
      (config.minimumConfidence ≤ e.confidence ∧
        (config.enableStrictMode = true →
          trimIsEmpty e.base.entity = false ∧ 8 ≤ e.confidence)) := by
    unfold isValidEntity
    constructor
    · intro h
      by_cases h1 : e.confidence < config.minimumConfidence
      · rw [if_pos h1] at h
        cases h
      · refine ⟨not_lt.mp h1, ?_⟩
        intro hstrict
        rw [if_neg h1, if_pos hstrict] at h
        rcases Bool.dichotomy (trimIsEmpty e.base.entity) with h3 | h3
        · by_cases h4 : e.confidence < 8
          · rw [if_neg (by simp [h3]), if_pos h4] at h
            cases h
          · exact ⟨h3, not_lt.mp h4⟩
        · rw [if_pos (by simp [h3])] at h
          cases h
    · rintro ⟨hmin, hrest⟩
      rw [if_neg (not_lt.mpr hmin)]
      by_cases h2 : config.enableStrictMode = true
      · rw [if_pos h2]
        obtain ⟨hb, h8⟩ := hrest h2
        rw [if_neg (by simp [hb]), if_neg (not_lt.mpr h8)]
      · rw [if_neg h2]
  refine ⟨hmain, ?_, rfl, List.filter_sublist es⟩
  intro hstrict
  rw [hmain]
  rw [max_le_iff]
  constructor
  · rintro ⟨hmin, hrest⟩
    obtain ⟨hb, h8⟩ := hrest hstrict
    exact ⟨hb, hmin, h8⟩
  · rintro ⟨hb, hmin, h8⟩
    exact ⟨hmin, fun _ => ⟨hb, h8⟩⟩

/-- Witness for C4 at a concrete entity and configuration: strict mode
with minimum confidence 7 accepts confidence 8 with a non-blank label. -/
theorem isValidEntity_characterization_witness :
    isValidEntity { minimumConfidence := 7, enableStrictMode := true }
      (.unstructured
        { entity := "email", reference := "p1", confidence := 8,
          rankHex := "ff0000", category := "pii" } "john@x.com") = true :=
  ((isValidEntity_characterization
      { minimumConfidence := 7, enableStrictMode := true }
      (.unstructured
        { entity := "email", reference := "p1", confidence := 8,
          rankHex := "ff0000", category := "pii" } "john@x.com") []).1).mpr
    (by exact ⟨by decide, fun _ => ⟨by decide, by decide⟩⟩)

/-! ## Association-list lemmas for the deduplicator -/

theorem assocLookup_eq_none_iff {β : Type} (m : List (String × β)) (k : String) :
    assocLookup m k = none ↔ k ∉ m.map Prod.fst := by
  induction m with
  | nil => simp [assocLookup]
  | cons p rest ih =>
    obtain ⟨k', v⟩ := p
    by_cases h : k' = k
    · subst h
      simp [assocLookup]
    · simp only [assocLookup, if_neg h, List.map_cons, List.mem_cons]
      rw [ih]
      constructor
      · intro hk
        rintro (rfl | hmem)
        · exact h rfl
        · exact hk hmem
      · intro hk hmem
        exact hk (Or.inr hmem)

theorem assocSet_map_fst_of_mem {β : Type} (m : List (String × β)) (k : String)
    (v : β) (h : k ∈ m.map Prod.fst) :
    (assocSet m k v).map Prod.fst = m.map Prod.fst := by
  induction m with
  | nil => simp at h
  | cons p rest ih =>
    obtain ⟨k', v'⟩ := p
    by_cases hk : k' = k
    · simp [assocSet, hk]
    · simp only [List.map_cons, List.mem_cons] at h
      rcases h with h | h
      · exact absurd h.symm hk
      · simp [assocSet, hk, ih h]

theorem assocSet_map_fst_of_not_mem {β : Type} (m : List (String × β)) (k : String)
    (v : β) (h : k ∉ m.map Prod.fst) :
    (assocSet m k v).map Prod.fst = m.map Prod.fst ++ [k] := by
  induction m with
  | nil => simp [assocSet]
  | cons p rest ih =>
    obtain ⟨k', v'⟩ := p
    simp only [List.map_cons, List.mem_cons] at h
    push_neg at h
    simp [assocSet, Ne.symm h.1, ih h.2]

theorem assocLookup_assocSet {β : Type} (m : List (String × β)) (k k' : String)
    (v : β) :
    assocLookup (assocSet m k v) k' = if k' = k then some v else assocLookup m k' := by
  induction m with
  | nil =>
    by_cases h : k' = k
    · simp [assocSet, assocLookup, h]
    · simp [assocSet, assocLookup, h, Ne.symm h]
  | cons p rest ih =>
    obtain ⟨k₀, v₀⟩ := p
    by_cases h0 : k₀ = k
    · subst h0
      by_cases h : k' = k₀
      · simp [assocSet, assocLookup, h]
      · simp [assocSet, assocLookup, h, Ne.symm h]
    · by_cases h : k₀ = k'
      · have hne : ¬ k' = k := by
          rw [← h]
          exact fun hc => h0 hc
        simp [assocSet, assocLookup, h0, h, hne]
      · simp [assocSet, assocLookup, h0, h, ih]

theorem assocSet_mem {β : Type} (m : List (String × β)) (k : String) (v : β)
    (p : String × β) (hp : p ∈ assocSet m k v) : p ∈ m ∨ p = (k, v) := by
  induction m with
  | nil =>
    simp [assocSet] at hp
    exact Or.inr hp
  | cons q rest ih =>
    obtain ⟨k₀, v₀⟩ := q
    by_cases h0 : k₀ = k
    · simp only [assocSet, if_pos h0] at hp
      rcases List.mem_cons.mp hp with hp1 | hp1
      · right
        rw [hp1, h0]
      · exact Or.inl (List.mem_cons_of_mem _ hp1)
    · simp only [assocSet, if_neg h0] at hp
      rcases List.mem_cons.mp hp with hp | hp
      · exact Or.inl (by simp [hp])
      · rcases ih hp with h | h
        · exact Or.inl (List.mem_cons_of_mem _ h)
        · exact Or.inr h

theorem assocLookup_of_mem_nodup {β : Type} (m : List (String × β))
    (hnd : (m.map Prod.fst).Nodup) (p : String × β) (hp : p ∈ m) :
    assocLookup m p.1 = some p.2 := by
  induction m with
  | nil => simp at hp
  | cons q rest ih =>
    obtain ⟨k₀, v₀⟩ := q
    simp only [List.map_cons, List.nodup_cons] at hnd
    rcases List.mem_cons.mp hp with hp | hp
    · subst hp
      simp [assocLookup]
    · have hne : k₀ ≠ p.1 := by
        intro hc
        exact hnd.1 (hc ▸ List.mem_map_of_mem Prod.fst hp)
      simp only [assocLookup, if_neg hne]
      exact ih hnd.2 hp

/-! ## The deduplication fold -/

theorem dedupStep_lookup (key : SensitiveEntity → String)
    (seen : List (String × SensitiveEntity)) (e : SensitiveEntity) (k : String) :
    assocLookup (dedupStep key seen e) k =
      if key e = k then combineBest (assocLookup seen k) e
      else assocLookup seen k := by
  unfold dedupStep
  cases hlook : assocLookup seen (key e) with
  | none =>
    rw [assocLookup_assocSet]
    by_cases hk : key e = k
    · rw [if_pos hk.symm, if_pos hk, ← hk, hlook]
      rfl
    · rw [if_neg (fun hc => hk hc.symm), if_neg hk]
  | some b =>
    dsimp only
    by_cases hc : b.confidence < e.confidence
    · rw [if_pos hc, assocLookup_assocSet]
      by_cases hk : key e = k
      · rw [if_pos hk.symm, if_pos hk, ← hk, hlook]
        simp [combineBest, hc]
      · rw [if_neg (fun hcc => hk hcc.symm), if_neg hk]
    · rw [if_neg hc]
      by_cases hk : key e = k
      · rw [if_pos hk, ← hk, hlook]
        simp [combineBest, hc]
      · rw [if_neg hk]

theorem dedup_foldl_lookup (key : SensitiveEntity → String)
    (l : List SensitiveEntity) :
    ∀ (seen : List (String × SensitiveEntity)) (k : String),
      assocLookup (l.foldl (dedupStep key) seen) k =
        (l.filter (fun e => key e = k)).foldl combineBest (assocLookup seen k) := by
  induction l with
  | nil => intro seen k; rfl
  | cons e rest ih =>
    intro seen k
    rw [List.foldl_cons, ih]
    by_cases hk : key e = k
    · rw [List.filter_cons_of_pos (by simp [hk]), List.foldl_cons,
        dedupStep_lookup, if_pos hk]
    · rw [List.filter_cons_of_neg (by simp [hk]), dedupStep_lookup, if_neg hk]

theorem dedupStep_map_fst (key : SensitiveEntity → String)
    (seen : List (String × SensitiveEntity)) (e : SensitiveEntity) :
    (dedupStep key seen e).map Prod.fst =
      if key e ∈ seen.map Prod.fst then seen.map Prod.fst
      else seen.map Prod.fst ++ [key e] := by
  unfold dedupStep
  cases hlook : assocLookup seen (key e) with
  | none =>
    have hmem : key e ∉ seen.map Prod.fst := (assocLookup_eq_none_iff _ _).mp hlook
    rw [if_neg hmem]
    exact assocSet_map_fst_of_not_mem seen (key e) e hmem
  | some b =>
    have hmem : key e ∈ seen.map Prod.fst := by
      by_contra hcon
      rw [(assocLookup_eq_none_iff seen (key e)).mpr hcon] at hlook
      cases hlook
    rw [if_pos hmem]
    dsimp only
    by_cases hc : b.confidence < e.confidence
    · rw [if_pos hc]
      exact assocSet_map_fst_of_mem seen (key e) e hmem
    · rw [if_neg hc]

theorem dedup_foldl_map_fst (key : SensitiveEntity → String)
    (l : List SensitiveEntity) :
    ∀ (seen : List (String × SensitiveEntity)),
      (l.foldl (dedupStep key) seen).map Prod.fst =
        seen.map Prod.fst ++ newKeys (seen.map Prod.fst) (l.map key) := by
  induction l with
  | nil => intro seen; simp [newKeys]
  | cons e rest ih =>
    intro seen
    rw [List.foldl_cons, ih, List.map_cons]
    by_cases hmem : key e ∈ seen.map Prod.fst
    · rw [dedupStep_map_fst, if_pos hmem]
      rw [newKeys, if_pos hmem]
    · rw [dedupStep_map_fst, if_neg hmem]
      rw [newKeys, if_neg hmem]
      simp

theorem newKeys_eq_firstOccurrenceKeys (ks : List String) :
    ∀ dom : List String,
      newKeys dom ks = firstOccurrenceKeys (ks.filter (fun x => x ∉ dom)) := by
  induction ks with
  | nil => intro dom; simp [newKeys, firstOccurrenceKeys]
  | cons k rest ih =>
    intro dom
    by_cases hk : k ∈ dom
    · rw [newKeys, if_pos hk, List.filter_cons_of_neg (by simp [hk]), ih]
    · rw [newKeys, if_neg hk, List.filter_cons_of_pos (by simp [hk]),
        firstOccurrenceKeys, ih (dom ++ [k])]
      have hfil : List.filter (fun x => decide (x ∉ dom ++ [k])) rest =
          List.filter (fun x => decide (x ≠ k) && decide (x ∉ dom)) rest := by
        apply List.filter_congr
        intro x _
        simp only [List.mem_append, List.mem_singleton, decide_not]
        by_cases hx : x ∈ dom
        · simp [hx]
        · by_cases hxk : x = k
          · simp [hx, hxk]
          · simp [hx, hxk]
      rw [hfil, ← List.filter_filter]

theorem dedup_foldl_key_consistent (key : SensitiveEntity → String)
    (l : List SensitiveEntity) :
    ∀ (seen : List (String × SensitiveEntity)),
      (∀ p ∈ seen, p.1 = key p.2) →
      ∀ p ∈ l.foldl (dedupStep key) seen, p.1 = key p.2 := by
  induction l with
  | nil => intro seen hseen p hp; exact hseen p hp
  | cons e rest ih =>
    intro seen hseen p hp
    rw [List.foldl_cons] at hp
    refine ih (dedupStep key seen e) ?_ p hp
    intro q hq
    unfold dedupStep at hq
    cases hlook : assocLookup seen (key e) with
    | none =>
      rw [hlook] at hq
      rcases assocSet_mem seen (key e) e q hq with h | h
      · exact hseen q h
      · rw [h]
    | some b =>
      rw [hlook] at hq
      dsimp only at hq
      by_cases hc : b.confidence < e.confidence
      · rw [if_pos hc] at hq
        rcases assocSet_mem seen (key e) e q hq with h | h
        · exact hseen q h
        · rw [h]
      · rw [if_neg hc] at hq
        exact hseen q hq

theorem firstOccurrenceKeys_subset (l : List String) (x : String)
    (h : x ∈ firstOccurrenceKeys l) : x ∈ l := by
  match l with
  | [] => simp [firstOccurrenceKeys] at h
  | k :: rest =>
    rw [firstOccurrenceKeys] at h
    rcases List.mem_cons.mp h with h | h
    · exact h ▸ List.mem_cons_self k rest
    · have := firstOccurrenceKeys_subset (rest.filter (fun y => y ≠ k)) x h
      exact List.mem_cons_of_mem _ (List.mem_of_mem_filter this)
termination_by l.length
decreasing_by
  exact Nat.lt_succ_of_le (List.length_filter_le _ _)

theorem firstOccurrenceKeys_nodup (l : List String) :
    (firstOccurrenceKeys l).Nodup := by
  match l with
  | [] => simp [firstOccurrenceKeys]
  | k :: rest =>
    rw [firstOccurrenceKeys]
    refine List.nodup_cons.mpr ⟨?_, firstOccurrenceKeys_nodup _⟩
    intro hmem
    have := firstOccurrenceKeys_subset _ _ hmem
    have hk := List.of_mem_filter this
    simp at hk
termination_by l.length
decreasing_by
  exact Nat.lt_succ_of_le (List.length_filter_le _ _)

theorem foldl_combineBest_mem (xs : List SensitiveEntity) :
    ∀ (acc : Option SensitiveEntity) (e : SensitiveEntity),
      xs.foldl combineBest acc = some e → acc = some e ∨ e ∈ xs := by
  induction xs with
  | nil => intro acc e h; exact Or.inl h
  | cons x rest ih =>
    intro acc e h
    rw [List.foldl_cons] at h
    rcases ih (combineBest acc x) e h with h1 | h1
    · cases acc with
      | none =>
        simp only [combineBest] at h1
        refine Or.inr ?_
        rw [← Option.some.inj h1]
        exact List.mem_cons_self x rest
      | some b =>
        simp only [combineBest] at h1
        by_cases hc : b.confidence < x.confidence
        · rw [if_pos hc] at h1
          refine Or.inr ?_
          rw [← Option.some.inj h1]
          exact List.mem_cons_self x rest
        · rw [if_neg hc] at h1
          exact Or.inl h1
    · exact Or.inr (List.mem_cons_of_mem _ h1)

theorem foldl_combineBest_max (xs : List SensitiveEntity) :
    ∀ (acc : Option SensitiveEntity) (e : SensitiveEntity),
      xs.foldl combineBest acc = some e →
      (∀ x ∈ xs, x.confidence ≤ e.confidence) ∧
        (∀ b, acc = some b → b.confidence ≤ e.confidence) := by
  induction xs with
  | nil =>
    intro acc e h
    refine ⟨by simp, ?_⟩
    intro b hb
    rw [hb] at h
    rw [Option.some.inj h]
  | cons x rest ih =>
    intro acc e h
    rw [List.foldl_cons] at h
    obtain ⟨hall, hacc⟩ := ih (combineBest acc x) e h
    have hx : x.confidence ≤ e.confidence := by
      cases acc with
      | none => exact hacc x rfl
      | some b =>
        simp only [combineBest] at hacc
        by_cases hc : b.confidence < x.confidence
        · exact hacc x (by rw [if_pos hc])
        · exact le_trans (not_lt.mp hc) (hacc b (by rw [if_neg hc]))
    refine ⟨?_, ?_⟩
    · intro y hy
      rcases List.mem_cons.mp hy with hy | hy
      · exact hy ▸ hx
      · exact hall y hy
    · intro b hb
      cases acc with
      | none => cases hb
      | some b' =>
        obtain rfl := Option.some.inj hb
        simp only [combineBest] at hacc
        by_cases hc : b'.confidence < x.confidence
        · exact le_trans (le_of_lt hc) hx
        · exact hacc b' (by rw [if_neg hc])

/-- Full characterization of `deduplicateByKey`: the output keys are the
distinct keys in order of first occurrence, and the entity kept for each
key is the streaming best (strict-improvement) choice among the entities
with that key, which is a member of the input of maximal confidence for
its key. -/
theorem deduplicateByKey_spec (key : SensitiveEntity → String)
    (entities : List SensitiveEntity) :
    (deduplicateByKey entities key).map key =
      firstOccurrenceKeys (entities.map key) ∧
    (∀ e ∈ deduplicateByKey entities key,
      bestForKey entities key (key e) = some e) ∧
    (∀ e ∈ deduplicateByKey entities key,
      e ∈ entities ∧
        ∀ e' ∈ entities, key e' = key e → e'.confidence ≤ e.confidence) := by
  have hcons : ∀ p ∈ entities.foldl (dedupStep key) [], p.1 = key p.2 :=
    dedup_foldl_key_consistent key entities [] (by simp)
  have hfst : (entities.foldl (dedupStep key) []).map Prod.fst =
      firstOccurrenceKeys (entities.map key) := by
    rw [dedup_foldl_map_fst]
    simp only [List.map_nil, List.nil_append]
    rw [newKeys_eq_firstOccurrenceKeys]
    congr 1
    exact List.filter_eq_self.mpr (by simp)
  have hnd : ((entities.foldl (dedupStep key) []).map Prod.fst).Nodup := by
    rw [hfst]
    exact firstOccurrenceKeys_nodup _
  have hlook : ∀ p ∈ entities.foldl (dedupStep key) [],
      bestForKey entities key p.1 = some p.2 := by
    intro p hp
    have hmem := assocLookup_of_mem_nodup _ hnd p hp
    have heq := dedup_foldl_lookup key entities [] p.1
    simp only [assocLookup] at heq
    unfold bestForKey
    rw [← heq]
    exact hmem
  have hbest : ∀ e ∈ deduplicateByKey entities key,
      bestForKey entities key (key e) = some e := by
    intro e he
    obtain ⟨p, hp, hpe⟩ := List.mem_map.mp he
    have hkey : p.1 = key e := by
      rw [hcons p hp, hpe]
    rw [← hkey]
    rw [hlook p hp, hpe]
  refine ⟨?_, hbest, ?_⟩
  · unfold deduplicateByKey
    rw [List.map_map]
    rw [List.map_congr_left (fun p hp => ?_), hfst]
    exact (hcons p hp).symm
  · intro e he
    have hb := hbest e he
    have hmem := foldl_combineBest_mem _ none e hb
    rcases hmem with h | h
    · cases h
    · constructor
      · exact List.mem_of_mem_filter h
      · intro e' he' hke
        have hmax := (foldl_combineBest_max _ none e hb).1
        exact hmax e' (List.mem_filter.mpr ⟨he', by simp [hke]⟩)

/-- For a shape inside the closed enum, `removeDuplicates` is exactly
`deduplicateByKey` applied to the type-guard-filtered input with the
shape's identity key. -/
theorem removeDuplicates_eq_of_mem (config : DeduplicationConfig)
    (entities : List SensitiveEntity) (shape : String)
    (hshape : shape ∈ enumAnalysisTypes) :
    removeDuplicates config entities shape =
      deduplicateByKey (entities.filter (dedupShapeGuard shape))
        (dedupShapeKey config.caseSensitive shape) := by
  simp only [enumAnalysisTypes, List.mem_cons, List.mem_singleton] at hshape
  rcases hshape with rfl | rfl | rfl | rfl | h
  · rfl
  · rfl
  · rfl
  · rfl
  · simp at h

/-- C5: For every entity list and recognized shape, `removeDuplicates`
keeps, per distinct identity key, the single entity chosen by the
streaming rule (a later entity replaces the kept one only on strictly
higher confidence, so ties keep the first): the kept entity is a
highest-confidence entity for its key, and the output lists the distinct
keys in the order they were first seen among the matching entities. -/
theorem removeDuplicates_keeps_highest_per_key (config : DeduplicationConfig)
    (entities : List SensitiveEntity) (shape : String)
    (hshape : shape ∈ enumAnalysisTypes) :
    (removeDuplicates config entities shape).map
        (dedupShapeKey config.caseSensitive shape) =
      firstOccurrenceKeys ((entities.filter (dedupShapeGuard shape)).map
        (dedupShapeKey config.caseSensitive shape)) ∧
    (∀ e ∈ removeDuplicates config entities shape,
      bestForKey (entities.filter (dedupShapeGuard shape))
          (dedupShapeKey config.caseSensitive shape)
          (dedupShapeKey config.caseSensitive shape e) = some e) ∧
    (∀ e ∈ removeDuplicates config entities shape,
      e ∈ entities.filter (dedupShapeGuard shape) ∧
        ∀ e' ∈ entities.filter (dedupShapeGuard shape),
          dedupShapeKey config.caseSensitive shape e' =
            dedupShapeKey config.caseSensitive shape e →
          e'.confidence ≤ e.confidence) := by
  rw [removeDuplicates_eq_of_mem config entities shape hshape]
  exact deduplicateByKey_spec _ _

/-- Witness for C5 at a concrete input: two unstructured entities sharing
the (case-insensitive) key and one with a distinct key. -/
theorem removeDuplicates_keeps_highest_per_key_witness :
    ("UNSTRUCTURED" ∈ enumAnalysisTypes) ∧
    (removeDuplicates { caseSensitive := false }
        [.unstructured
            { entity := "email", reference := "p1", confidence := 5,
              rankHex := "aa0000", category := "pii" } "John@x.com",
          .unstructured
            { entity := "email", reference := "p1", confidence := 9,
              rankHex := "bb0000", category := "pii" } "john@x.com"]
        "UNSTRUCTURED").map (dedupShapeKey false "UNSTRUCTURED") =
      firstOccurrenceKeys
        (([.unstructured
              { entity := "email", reference := "p1", confidence := 5,
                rankHex := "aa0000", category := "pii" } "John@x.com",
            .unstructured
              { entity := "email", reference := "p1", confidence := 9,
                rankHex := "bb0000", category := "pii" } "john@x.com"].filter
            (dedupShapeGuard "UNSTRUCTURED")).map
          (dedupShapeKey false "UNSTRUCTURED")) :=
  ⟨by decide,
    (removeDuplicates_keeps_highest_per_key { caseSensitive := false } _
      "UNSTRUCTURED" (by decide)).1⟩

/-- C9: `removeDuplicates` silently drops entities whose variant does not
match the requested shape from the dedup pass (every surviving entity
passed the shape's type guard, and nothing is ever raised — the function
is total), and any shape value outside the `ContentShape` enum returns
the input list unchanged, with no deduplication applied. -/
theorem removeDuplicates_guard_and_passthrough (config : DeduplicationConfig)
    (entities : List SensitiveEntity) (shape : String) :
    (shape ∉ enumAnalysisTypes → removeDuplicates config entities shape = entities) ∧
    (∀ e ∈ removeDuplicates config entities shape, e ∈ entities) ∧
    (shape ∈ enumAnalysisTypes →
      ∀ e ∈ removeDuplicates config entities shape, dedupShapeGuard shape e = true) := by
  by_cases hshape : shape ∈ enumAnalysisTypes
  · refine ⟨fun hcon => absurd hshape hcon, ?_, ?_⟩
    · intro e he
      rw [removeDuplicates_eq_of_mem config entities shape hshape] at he
      exact List.mem_of_mem_filter ((deduplicateByKey_spec _ _).2.2 e he).1
    · intro _ e he
      rw [removeDuplicates_eq_of_mem config entities shape hshape] at he
      exact (List.mem_filter.mp ((deduplicateByKey_spec _ _).2.2 e he).1).2
  · have hne := hshape
    simp only [enumAnalysisTypes, List.mem_cons, List.mem_singleton,
      List.not_mem_nil] at hne
    push_neg at hne
    have hid : removeDuplicates config entities shape = entities := by
      unfold removeDuplicates
      split
      · exact absurd rfl hne.1
      · exact absurd rfl hne.2.2.2.1
      · exact absurd rfl hne.2.2.1
      · exact absurd rfl hne.2.1
      · rfl
    refine ⟨fun _ => hid, ?_, fun hmem => absurd hmem hshape⟩
    rw [hid]
    exact fun e he => he

/-- Witness for C9 at a concrete input: an out-of-enum shape string passes
the input through unchanged. -/
theorem removeDuplicates_guard_and_passthrough_witness :
    removeDuplicates { caseSensitive := false }
        [.structured
          { entity := "ssn", reference := "p1", confidence := 9,
            rankHex := "cc0000", category := "pii" } "a.b"]
        "XLSX" =
      [.structured
        { entity := "ssn", reference := "p1", confidence := 9,
          rankHex := "cc0000", category := "pii" } "a.b"] :=
  (removeDuplicates_guard_and_passthrough { caseSensitive := false } _ "XLSX").1
    (by decide)

/-- C8: Two spreadsheet entities on the same sheet whose range lists are
permutations of each other receive the same identity key (ranges are
sorted before joining), and `removeDuplicates` with shape SPREADSHEET
collapses the pair to the single entity with the higher confidence (the
first at a tie). -/
theorem removeDuplicates_spreadsheet_range_order_irrelevant
    (config : DeduplicationConfig) (b1 b2 : SensitiveEntityBase)
    (r1 r2 : List String) (s : String) (hperm : r1.Perm r2) :
    dedupKeySpreadsheet (.spreadsheet b1 r1 s) =
      dedupKeySpreadsheet (.spreadsheet b2 r2 s) ∧
    removeDuplicates config
        [.spreadsheet b1 r1 s, .spreadsheet b2 r2 s] "SPREADSHEET" =
      [if b1.confidence < b2.confidence then
        SensitiveEntity.spreadsheet b2 r2 s
       else SensitiveEntity.spreadsheet b1 r1 s] := by
  have hsort : List.insertionSort (· ≤ ·) r1 = List.insertionSort (· ≤ ·) r2 :=
    List.eq_of_perm_of_sorted
      (((List.perm_insertionSort _ r1).trans hperm).trans
        (List.perm_insertionSort _ r2).symm)
      (List.sorted_insertionSort _ r1) (List.sorted_insertionSort _ r2)
  have hkey : dedupKeySpreadsheet (.spreadsheet b1 r1 s) =
      dedupKeySpreadsheet (.spreadsheet b2 r2 s) := by
    unfold dedupKeySpreadsheet normalizeRanges
    simp only [SensitiveEntity.sheetNameField, SensitiveEntity.rangesField]
    rw [hsort]
  refine ⟨hkey, ?_⟩
  have hg : dedupShapeGuard "SPREADSHEET" = isSpreadsheetSensitiveEntity := rfl
  have hk : dedupShapeKey config.caseSensitive "SPREADSHEET" = dedupKeySpreadsheet := rfl
  rw [removeDuplicates_eq_of_mem config _ "SPREADSHEET" (by decide), hg, hk]
  by_cases hc : b1.confidence < b2.confidence
  · simp [deduplicateByKey, isSpreadsheetSensitiveEntity, dedupStep, assocLookup,
      assocSet, hkey, SensitiveEntity.confidence, SensitiveEntity.base, hc]
  · simp [deduplicateByKey, isSpreadsheetSensitiveEntity, dedupStep, assocLookup,
      assocSet, hkey, SensitiveEntity.confidence, SensitiveEntity.base, hc]

/-- Witness for C8 at a concrete input: the two range orders from the
spec's example collapse to the higher-confidence entity. -/
theorem removeDuplicates_spreadsheet_range_order_irrelevant_witness :
    (["B1:B5", "A1:A5"].Perm ["A1:A5", "B1:B5"]) ∧
    removeDuplicates { caseSensitive := false }
        [.spreadsheet
            { entity := "col", reference := "p1", confidence := 5,
              rankHex := "dd0000", category := "pii" } ["B1:B5", "A1:A5"] "Sheet1",
          .spreadsheet
            { entity := "col", reference := "p1", confidence := 9,
              rankHex := "ee0000", category := "pii" } ["A1:A5", "B1:B5"] "Sheet1"]
        "SPREADSHEET" =
      [.spreadsheet
        { entity := "col", reference := "p1", confidence := 9,
          rankHex := "ee0000", category := "pii" } ["A1:A5", "B1:B5"] "Sheet1"] := by
  have h := removeDuplicates_spreadsheet_range_order_irrelevant
    { caseSensitive := false }
    { entity := "col", reference := "p1", confidence := 5,
      rankHex := "dd0000", category := "pii" }
    { entity := "col", reference := "p1", confidence := 9,
      rankHex := "ee0000", category := "pii" }
    ["B1:B5", "A1:A5"] ["A1:A5", "B1:B5"] "Sheet1" (by decide)
  refine ⟨by decide, ?_⟩
  rw [h.2]
  norm_num

/-! ## CSV round-trip lemmas -/

theorem parseCsvAux_nil (inQuotes : Bool) (field : List Char)
    (row : List (List Char)) (rows : List (List (List Char))) :
    parseCsvAux [] inQuotes field row rows = rows ++ [row ++ [field]] := by
  rw [parseCsvAux]

theorem parseCsvAux_quote_escaped (t : List Char) (field : List Char)
    (row : List (List Char)) (rows : List (List (List Char))) :
    parseCsvAux ('"' :: '"' :: t) true field row rows =
      parseCsvAux t true (field ++ ['"']) row rows := by
  rw [parseCsvAux]
  simp

theorem parseCsvAux_quote_open (t : List Char) (field : List Char)
    (row : List (List Char)) (rows : List (List (List Char))) :
    parseCsvAux ('"' :: t) false field row rows =
      parseCsvAux t true field row rows := by
  rw [parseCsvAux]
  simp

theorem parseCsvAux_quote_close (t : List Char) (field : List Char)
    (row : List (List Char)) (rows : List (List (List Char)))
    (ht : t.head? ≠ some '"') :
    parseCsvAux ('"' :: t) true field row rows =
      parseCsvAux t false field row rows := by
  rw [parseCsvAux]
  simp [ht]

theorem parseCsvAux_comma (t : List Char) (field : List Char)
    (row : List (List Char)) (rows : List (List (List Char))) :
    parseCsvAux (',' :: t) false field row rows =
      parseCsvAux t false [] (row ++ [field]) rows := by
  rw [parseCsvAux]
  simp

theorem parseCsvAux_plain_quoted (c : Char) (t : List Char) (field : List Char)
    (row : List (List Char)) (rows : List (List (List Char))) (hc : c ≠ '"') :
    parseCsvAux (c :: t) true field row rows =
      parseCsvAux t true (field ++ [c]) row rows := by
  rw [parseCsvAux]
  simp [hc]

theorem parseCsvAux_plain_unquoted (c : Char) (t : List Char) (field : List Char)
    (row : List (List Char)) (rows : List (List (List Char)))
    (hq : c ≠ '"') (hcm : c ≠ ',') (hn : c ≠ '\n') (hr : c ≠ '\r') :
    parseCsvAux (c :: t) false field row rows =
      parseCsvAux t false (field ++ [c]) row rows := by
  rw [parseCsvAux]
  simp [hq, hcm, hn, hr]

/-- Scanning the quote-escaped form of `val` inside a quoted field, up to
and including the closing quote, appends `val` to the current field.  The
character after the closing quote must not be another quote (in the
serialized stream it is a comma or the end of the input). -/
theorem parseCsvAux_escaped_val (val : List Char) :
    ∀ (t : List Char) (field : List Char) (row : List (List Char))
      (rows : List (List (List Char))), t.head? ≠ some '"' →
      parseCsvAux (escapeQuotes val ++ '"' :: t) true field row rows =
        parseCsvAux t false (field ++ val) row rows := by
  induction val with
  | nil =>
    intro t field row rows ht
    simp only [escapeQuotes, List.nil_append, List.append_nil]
    exact parseCsvAux_quote_close t field row rows ht
  | cons c val' ih =>
    intro t field row rows ht
    by_cases hc : c = '"'
    · subst hc
      rw [show escapeQuotes ('"' :: val') = '"' :: '"' :: escapeQuotes val' from by
        simp [escapeQuotes]]
      simp only [List.cons_append]
      rw [parseCsvAux_quote_escaped, ih t (field ++ ['"']) row rows ht]
      simp
    · rw [show escapeQuotes (c :: val') = c :: escapeQuotes val' from by
        simp [escapeQuotes, hc]]
      simp only [List.cons_append]
      rw [parseCsvAux_plain_quoted c _ field row rows hc,
        ih t (field ++ [c]) row rows ht]
      simp

/-- Scanning a run of plain characters (no quote, comma or newline) in
unquoted state appends them to the current field. -/
theorem parseCsvAux_plain_val (val : List Char)
    (hplain : ∀ c ∈ val, c ≠ '"' ∧ c ≠ ',' ∧ c ≠ '\n' ∧ c ≠ '\r') :
    ∀ (t : List Char) (field : List Char) (row : List (List Char))
      (rows : List (List (List Char))),
      parseCsvAux (val ++ t) false field row rows =
        parseCsvAux t false (field ++ val) row rows := by
  induction val with
  | nil => intro t field row rows; simp
  | cons c val' ih =>
    intro t field row rows
    obtain ⟨hq, hcm, hn, hr⟩ := hplain c (List.mem_cons_self c val')
    simp only [List.cons_append]
    rw [parseCsvAux_plain_unquoted c _ field row rows hq hcm hn hr,
      ih (fun x hx => hplain x (List.mem_cons_of_mem c hx)) t (field ++ [c]) row rows]
    simp

theorem mem_escapeQuotes_of_mem (val : List Char) (c : Char) (hc : c ∈ val) :
    c ∈ escapeQuotes val := by
  induction val with
  | nil => simp at hc
  | cons x rest ih =>
    rcases List.mem_cons.mp hc with rfl | hc'
    · by_cases hx : c = '"'
      · simp [escapeQuotes, hx]
      · simp [escapeQuotes, hx]
    · by_cases hx : x = '"' <;> simp [escapeQuotes, hx, ih hc']

theorem escapeQuotes_of_no_quote (val : List Char)
    (h : '"' ∉ val) : escapeQuotes val = val := by
  induction val with
  | nil => rfl
  | cons c rest ih =>
    simp only [List.mem_cons] at h
    push_neg at h
    simp [escapeQuotes, Ne.symm h.1, ih h.2]

/-- When the escaped form of a field needs no quoting, the field contains
no special character at all and equals its escaped form. -/
theorem needsQuoting_false_facts (val : List Char)
    (h : needsQuoting (escapeQuotes val) = false) :
    escapeQuotes val = val ∧
      ∀ c ∈ val, c ≠ '"' ∧ c ≠ ',' ∧ c ≠ '\n' ∧ c ≠ '\r' := by
  simp only [needsQuoting, Bool.or_eq_false_iff] at h
  obtain ⟨⟨⟨hcm, hqu⟩, hcr⟩, hnl⟩ := h
  simp only [List.elem_eq_mem, decide_eq_false_iff_not] at hcm hqu hcr hnl
  have hnq : '"' ∉ val := by
    intro hmem
    exact hqu (mem_escapeQuotes_of_mem val '"' hmem)
  refine ⟨escapeQuotes_of_no_quote val hnq, ?_⟩
  intro c hc
  have hc' : c ∈ escapeQuotes val := mem_escapeQuotes_of_mem val c hc
  exact ⟨fun hx => hqu (hx ▸ hc'), fun hx => hcm (hx ▸ hc'),
    fun hx => hnl (hx ▸ hc'), fun hx => hcr (hx ▸ hc')⟩

/-- Scanning one serialized field followed by `t` (which must not start
with a quote) consumes exactly the serialization and records the original
field value. -/
theorem parseCsvAux_field (val : List Char) (t : List Char)
    (row : List (List Char)) (rows : List (List (List Char)))
    (ht : t.head? ≠ some '"') :
    parseCsvAux (serializeCsvField val ++ t) false [] row rows =
      parseCsvAux t false val row rows := by
  by_cases hq : needsQuoting (escapeQuotes val) = true
  · rw [show serializeCsvField val = '"' :: (escapeQuotes val ++ ['"']) from by
      unfold serializeCsvField
      rw [if_pos hq]]
    rw [List.cons_append, List.append_assoc]
    simp only [List.singleton_append]
    rw [parseCsvAux_quote_open]
    simpa using parseCsvAux_escaped_val val t [] row rows ht
  · have hq' : needsQuoting (escapeQuotes val) = false := by
      cases h : needsQuoting (escapeQuotes val)
      · rfl
      · exact absurd h hq
    obtain ⟨heq, hplain⟩ := needsQuoting_false_facts val hq'
    rw [show serializeCsvField val = val from by
      unfold serializeCsvField
      rw [if_neg hq, heq]]
    rw [parseCsvAux_plain_val val hplain t [] row rows]
    simp

/-- Scanning a whole serialized row records exactly the original field
values as one row. -/
theorem parseCsvAux_row (v : List Char) (vs : List (List Char)) :
    ∀ (row : List (List Char)) (rows : List (List (List Char))),
      parseCsvAux (serializeCsvRow (v :: vs)) false [] row rows =
        rows ++ [row ++ (v :: vs)] := by
  induction vs generalizing v with
  | nil =>
    intro row rows
    unfold serializeCsvRow
    simp only [List.map_cons, List.map_nil, joinComma]
    have h2 := parseCsvAux_field v [] row rows (by simp)
    rw [List.append_nil] at h2
    rw [h2, parseCsvAux_nil]
  | cons v2 vs' ih =>
    intro row rows
    unfold serializeCsvRow
    simp only [List.map_cons, joinComma]
    rw [show serializeCsvField v ++
        ',' :: joinComma (serializeCsvField v2 :: vs'.map serializeCsvField) =
        serializeCsvField v ++
          (',' :: joinComma (serializeCsvField v2 :: vs'.map serializeCsvField))
      from rfl]
    rw [parseCsvAux_field v _ row rows (by simp), parseCsvAux_comma]
    have := ih v2 (row ++ [v]) rows
    unfold serializeCsvRow at this
    simp only [List.map_cons, joinComma] at this
    rw [this]
    simp

/-- C7 (amended to rows with at least one field): serializing any
non-empty row with `serializeCsvRow` and re-parsing with `parseCsv`
reproduces the original field values exactly. -/
theorem parseCsv_serializeCsvRow_roundtrip (vals : List (List Char))
    (hne : vals ≠ []) : parseCsv (serializeCsvRow vals) = [vals] := by
  obtain ⟨v, vs, rfl⟩ := List.exists_cons_of_ne_nil hne
  unfold parseCsv
  rw [parseCsvAux_row v vs [] []]
  simp

/-- Witness for C7 at the spec's example shape: a row whose fields contain
a comma, a quote and a newline round-trips. -/
theorem parseCsv_serializeCsvRow_roundtrip_witness :
    ([['a', ',', 'b'], ['c', '"', 'd'], ['e', '\n', 'f']] ≠
        ([] : List (List Char))) ∧
    parseCsv (serializeCsvRow [['a', ',', 'b'], ['c', '"', 'd'], ['e', '\n', 'f']]) =
      [[['a', ',', 'b'], ['c', '"', 'd'], ['e', '\n', 'f']]] :=
  ⟨by decide,
    parseCsv_serializeCsvRow_roundtrip
      [['a', ',', 'b'], ['c', '"', 'd'], ['e', '\n', 'f']] (by decide)⟩

/-- Counterexample to C7 as stated for every row: the empty row serializes
to the empty string, which re-parses as one row holding one empty field,
not as the empty row. -/
theorem parseCsv_serializeCsvRow_empty_row_fails :
    parseCsv (serializeCsvRow ([] : List (List Char))) ≠
      [([] : List (List Char))] := by
  have h : parseCsv (serializeCsvRow ([] : List (List Char))) =
      [[([] : List Char)]] := by
    unfold serializeCsvRow parseCsv
    simp only [List.map_nil, joinComma]
    rw [parseCsvAux_nil]
    simp
  rw [h]
  simp

/-! ## Orchestrator theorems -/

/-- A chunk task succeeds exactly when its identifier call succeeds: the
validation and counting on the success path and the message wrapping on
the failure path do not change the outcome kind. -/
theorem chunkTask_isOk (vconfig : ValidationConfig) (ident : IdentifierBehavior)
    (i : Nat) (chunk : ChunkData) :
    (chunkTask vconfig ident i chunk).2.isOk = (ident i chunk).2.isOk := by
  simp only [chunkTask]
  cases h : (ident i chunk).2 with
  | ok v => rfl
  | error m => rfl

/-- The trace always has the shape `thinking events ++ [one terminal]`. -/
theorem analyzeSensitiveContent_trace_shape (chunker : ChunkerBehavior)
    (ident : IdentifierBehavior) (vconfig : ValidationConfig)
    (dconfig : DeduplicationConfig) (job : ProcessingJob) :
    ∃ term : AnalysisEvent, isTerminalEvent term = true ∧
      analyzeSensitiveContent chunker ident vconfig dconfig job =
        ((executeWorkflow chunker ident vconfig dconfig job).1.map
          AnalysisEvent.thinking) ++ [term] := by
  unfold analyzeSensitiveContent
  cases h : (executeWorkflow chunker ident vconfig dconfig job).2 with
  | ok result =>
    refine ⟨.complete result.entities result.stats, rfl, ?_⟩
    dsimp only
    rw [h]
  | error m =>
    refine ⟨.error m, rfl, ?_⟩
    dsimp only
    rw [h]

/-- C2: For every job and every collaborator behaviour, the entry point
invokes the callback with a terminal event exactly once — exactly one
`complete` or `error` in the trace, as its last event — and if any single
chunk task's identifier call fails, the terminal event is an `error` and
no `complete` event is ever emitted. -/
theorem analyzeSensitiveContent_one_terminal (chunker : ChunkerBehavior)
    (ident : IdentifierBehavior) (vconfig : ValidationConfig)
    (dconfig : DeduplicationConfig) (job : ProcessingJob) :
    ((analyzeSensitiveContent chunker ident vconfig dconfig job).countP
        isTerminalEvent = 1 ∧
      ∃ e, (analyzeSensitiveContent chunker ident vconfig dconfig job).getLast?
          = some e ∧ isTerminalEvent e = true) ∧
    (triggerParseOk job = true →
      ∀ p ∈ (chunker job.analysisType job.content).enum,
        (ident p.1 p.2).2.isOk = false →
        (analyzeSensitiveContent chunker ident vconfig dconfig job).countP
            isCompleteEvent = 0 ∧
          (analyzeSensitiveContent chunker ident vconfig dconfig job).countP
            isErrorEvent = 1) := by
  obtain ⟨term, hterm, htrace⟩ :=
    analyzeSensitiveContent_trace_shape chunker ident vconfig dconfig job
  constructor
  · constructor
    · rw [htrace, List.countP_append, List.countP_map]
      have hz : ((executeWorkflow chunker ident vconfig dconfig job).1.countP
          (isTerminalEvent ∘ AnalysisEvent.thinking)) = 0 := by
        apply List.countP_eq_zero.mpr
        intro d _
        simp [Function.comp, isTerminalEvent]
      rw [hz]
      simp [hterm]
    · exact ⟨term, by rw [htrace]; exact List.getLast?_concat _, hterm⟩
  · intro hok p hp hfail
    have hex : executeWorkflow chunker ident vconfig dconfig job =
        runChunkPipeline chunker ident vconfig dconfig job := by
      unfold executeWorkflow
      rw [if_pos hok]
    have herr : ∃ m, (executeWorkflow chunker ident vconfig dconfig job).2 =
        .error m := by
      rw [hex]
      simp only [runChunkPipeline]
      set outs := (chunker job.analysisType job.content).enum.map
        (fun q => chunkTask vconfig ident q.1 q.2) with houts
      have hsome : outs.findSome?
          (fun o => match o.2 with | .error m => some m | .ok _ => none) ≠ none := by
        intro hnone
        rw [List.findSome?_eq_none_iff] at hnone
        have hmem : chunkTask vconfig ident p.1 p.2 ∈ outs := by
          rw [houts]
          exact List.mem_map_of_mem _ hp
        have hval := hnone _ hmem
        cases hc2 : (chunkTask vconfig ident p.1 p.2).2 with
        | ok v =>
          have hok2 := chunkTask_isOk vconfig ident p.1 p.2
          rw [hc2, hfail] at hok2
          simp [Except.isOk, Except.toBool] at hok2
        | error m =>
          rw [hc2] at hval
          simp at hval
      cases hfs : outs.findSome?
          (fun o => match o.2 with | .error m => some m | .ok _ => none) with
      | none => exact absurd hfs hsome
      | some m => exact ⟨"Sensitive analysis failed: " ++ m, rfl⟩
    obtain ⟨m, hm⟩ := herr
    have htr2 : analyzeSensitiveContent chunker ident vconfig dconfig job =
        ((executeWorkflow chunker ident vconfig dconfig job).1.map
          AnalysisEvent.thinking) ++ [.error m] := by
      unfold analyzeSensitiveContent
      dsimp only
      rw [hm]
    rw [htr2]
    constructor
    · rw [List.countP_append, List.countP_map]
      have hz : ((executeWorkflow chunker ident vconfig dconfig job).1.countP
          (isCompleteEvent ∘ AnalysisEvent.thinking)) = 0 := by
        apply List.countP_eq_zero.mpr
        intro d _
        simp [Function.comp, isCompleteEvent]
      rw [hz]
      simp [isCompleteEvent]
    · rw [List.countP_append, List.countP_map]
      have hz : ((executeWorkflow chunker ident vconfig dconfig job).1.countP
          (isErrorEvent ∘ AnalysisEvent.thinking)) = 0 := by
        apply List.countP_eq_zero.mpr
        intro d _
        simp [Function.comp, isErrorEvent]
      rw [hz]
      simp [isErrorEvent]

/-- Witness for C2 at a concrete job whose single chunk task fails: the
trace holds no `complete` event and exactly one `error` event. -/
theorem analyzeSensitiveContent_one_terminal_witness :
    (analyzeSensitiveContent
        (fun _ _ => [{ idIndex := 0, text := ['x'], offset := 0,
                       analysisType := "UNSTRUCTURED" }])
        (fun _ _ => ([], Except.error "identifier failed"))
        { minimumConfidence := 7, enableStrictMode := false }
        { caseSensitive := false }
        { content := ['x'], analysisType := "UNSTRUCTURED",
          policies := [{ id := "p1", name := "PII" }] }).countP
      isCompleteEvent = 0 ∧
    (analyzeSensitiveContent
        (fun _ _ => [{ idIndex := 0, text := ['x'], offset := 0,
                       analysisType := "UNSTRUCTURED" }])
        (fun _ _ => ([], Except.error "identifier failed"))
        { minimumConfidence := 7, enableStrictMode := false }
        { caseSensitive := false }
        { content := ['x'], analysisType := "UNSTRUCTURED",
          policies := [{ id := "p1", name := "PII" }] }).countP
      isErrorEvent = 1 :=
  (analyzeSensitiveContent_one_terminal
      (fun _ _ => [{ idIndex := 0, text := ['x'], offset := 0,
                     analysisType := "UNSTRUCTURED" }])
      (fun _ _ => ([], Except.error "identifier failed"))
      { minimumConfidence := 7, enableStrictMode := false }
      { caseSensitive := false }
      { content := ['x'], analysisType := "UNSTRUCTURED",
        policies := [{ id := "p1", name := "PII" }] }).2
    (by decide)
    (0, { idIndex := 0, text := ['x'], offset := 0,
          analysisType := "UNSTRUCTURED" })
    (by decide) (by decide)

/-- Counterexample to C3 as stated: a job with non-empty content, a valid
shape and one policy whose `id` and `name` are both empty strings is
"invalid" per the claim, yet `TriggerSchema` accepts it (`z.string()`
does not require non-emptiness) and the workflow proceeds past validation
— with trivial collaborators it even completes successfully. -/
theorem triggerValidation_accepts_blank_policy_fields :
    specInvalidJob
        { content := ['x'], analysisType := "UNSTRUCTURED",
          policies := [{ id := "", name := "" }] } = true ∧
    triggerParseOk
        { content := ['x'], analysisType := "UNSTRUCTURED",
          policies := [{ id := "", name := "" }] } = true ∧
    (executeWorkflow (fun _ _ => []) (fun _ _ => ([], Except.ok []))
      { minimumConfidence := 7, enableStrictMode := false }
      { caseSensitive := false }
      { content := ['x'], analysisType := "UNSTRUCTURED",
        policies := [{ id := "", name := "" }] }).2.isOk = true := by
  refine ⟨by decide, by decide, ?_⟩
  rfl

/-- C3 (amended): `Workflow.execute` fails the whole job before any
chunking or chunk work exactly when the content is empty, the analysis
type is outside the closed enum, or the policies list is empty — the
policy entries' `id` and `name` are only checked to be strings, not to be
non-empty.  When validation fails the result does not depend on any
collaborator (no chunk work happens); when it passes, execution is
exactly the post-validation pipeline. -/
theorem triggerValidation_fail_fast (job : ProcessingJob) :
    (triggerParseOk job = false ↔
      (job.content = [] ∨ job.analysisType ∉ enumAnalysisTypes ∨
        job.policies = [])) ∧
    (triggerParseOk job = false →
      ∀ (chunker : ChunkerBehavior) (ident : IdentifierBehavior)
        (vconfig : ValidationConfig) (dconfig : DeduplicationConfig),
        executeWorkflow chunker ident vconfig dconfig job =
          ([], .error invalidJobMessage)) ∧
    (triggerParseOk job = true →
      ∀ (chunker : ChunkerBehavior) (ident : IdentifierBehavior)
        (vconfig : ValidationConfig) (dconfig : DeduplicationConfig),
        executeWorkflow chunker ident vconfig dconfig job =
          runChunkPipeline chunker ident vconfig dconfig job) := by
  have htrue : triggerParseOk job = true ↔
      (1 ≤ job.content.length ∧ job.analysisType ∈ enumAnalysisTypes ∧
        1 ≤ job.policies.length) := by
    unfold triggerParseOk
    simp [List.elem_eq_mem, and_assoc]
  refine ⟨?_, ?_, ?_⟩
  · have hformat : (job.content = [] ∨ job.analysisType ∉ enumAnalysisTypes ∨
        job.policies = []) ↔
        ¬(1 ≤ job.content.length ∧ job.analysisType ∈ enumAnalysisTypes ∧
          1 ≤ job.policies.length) := by
      constructor
      · rintro (h | h | h) ⟨h1, h2, h3⟩
        · rw [h] at h1
          simp at h1
        · exact h h2
        · rw [h] at h3
          simp at h3
      · intro h
        by_cases h1 : job.content = []
        · exact Or.inl h1
        · by_cases h2 : job.analysisType ∈ enumAnalysisTypes
          · by_cases h3 : job.policies = []
            · exact Or.inr (Or.inr h3)
            · exact absurd ⟨List.length_pos.mpr h1, h2,
                List.length_pos.mpr h3⟩ h
          · exact Or.inr (Or.inl h2)
    rw [hformat, ← htrue]
    exact Bool.eq_false_iff.trans Iff.rfl
  · intro h chunker ident vconfig dconfig
    unfold executeWorkflow
    rw [if_neg (by simp [h])]
  · intro h chunker ident vconfig dconfig
    unfold executeWorkflow
    rw [if_pos h]

/-- Witness for C3 (amended) at a concrete input: empty content fails
validation and the workflow result is the fixed validation error,
independent of the collaborators. -/
theorem triggerValidation_fail_fast_witness :
    triggerParseOk
        { content := [], analysisType := "UNSTRUCTURED",
          policies := [{ id := "p1", name := "PII" }] } = false ∧
    executeWorkflow (fun _ _ => []) (fun _ _ => ([], Except.ok []))
      { minimumConfidence := 7, enableStrictMode := false }
      { caseSensitive := false }
      { content := [], analysisType := "UNSTRUCTURED",
        policies := [{ id := "p1", name := "PII" }] } =
      ([], .error invalidJobMessage) := by
  have h := triggerValidation_fail_fast
    { content := [], analysisType := "UNSTRUCTURED",
      policies := [{ id := "p1", name := "PII" }] }
  have h1 : triggerParseOk
      { content := [], analysisType := "UNSTRUCTURED",
        policies := [{ id := "p1", name := "PII" }] } = false :=
    h.1.mpr (Or.inl rfl)
  exact ⟨h1, h.2.1 h1 _ _ _ _⟩

end SensitiveAnalysis
